import Mathlib

/-!
Verification of the Student Management System (`st10.py`) against its
specification.  The development shallowly embeds the persistence layer
(normalized SQLite store: `students`, `subjects`, `student_subjects`),
the in-memory `Student` model, the derived average/grade computations,
the search operation and the add/update form's `save` action.

Modelling conventions:
* Python strings are embedded as `List Char` (`Str`); the string
  operations used by the source (`strip`, `split(",")`, `lower`,
  `join`, substring membership, `str`/`float` conversions) are defined
  as structurally recursive functions so that every definition is
  kernel-executable.
* Python floats are embedded as exact rationals (`PyRat`), a pair of a
  numerator and denominator kept normalized by a fuel-driven gcd; the
  function `toRat : PyRat → ℚ` bridges to Mathlib's rationals and the
  arithmetic operations are proved to commute with it.  Binary
  floating-point rounding error is not modelled: arithmetic is exact.
* SQLite tables are embedded as lists of rows in rowid (insertion)
  order; `INSERT OR REPLACE`, `INSERT OR IGNORE`, `DELETE` with
  `ON DELETE CASCADE` (the schema declares it and `_init_db` turns
  `PRAGMA foreign_keys` on) and the `JOIN ... ORDER BY sub.name` of
  `load_data` are modelled directly on those lists.
* The sqlite3 connection is a pair of database states: the committed
  state and the state seen by the cursor.  A `with self.conn:` block
  commits on normal exit and rolls back to the committed state when an
  exception escapes its body — including the nested block opened by
  `_get_subject_id` inside `db_upsert_student_normalized`, whose normal
  exit commits the enclosing transaction as well (sqlite3 connections
  do not nest transactions).  Database errors are injected through an
  explicit fault parameter counting the write statements executed.
-/

/-- A Python string, embedded as its list of characters. -/
abbrev Str := List Char

/-- Embed a Lean string literal as a `Str`. -/
def pyStr (s : String) : Str := s.data

/-- Python `str.strip` whitespace test (space, tab, newline, CR, VT, FF). -/
def isPySpace (c : Char) : Bool :=
  c == ' ' || c == '\t' || c == '\n' || c == '\r' || c == '\x0b' || c == '\x0c'

/-- Python `s.strip()`: remove leading and trailing whitespace. -/
def pyStrip (s : Str) : Str :=
  ((s.dropWhile isPySpace).reverse.dropWhile isPySpace).reverse

/-- Python `s.split(",")`. -/
def pySplitComma (s : Str) : List Str :=
  s.foldr
    (fun c acc =>
      if c == ',' then [] :: acc
      else
        match acc with
        | [] => [[c]]
        | a :: as => (c :: a) :: as)
    [[]]

/-- Python `s.lower()` (ASCII case folding, as used on the searched fields). -/
def pyLower (s : Str) : Str := s.map Char.toLower

/-- Python `sep.join(items)`. -/
def pyJoin (sep : Str) (items : List Str) : Str := List.intercalate sep items

/-- Is `p` a prefix of `s`?  (Helper for Python's substring test.) -/
def pyStarts (p s : Str) : Bool :=
  match p, s with
  | [], _ => true
  | _ :: _, [] => false
  | a :: p', b :: s' => a == b && pyStarts p' s'

/-- Python `needle in hay` (substring membership). -/
def pyContains (hay needle : Str) : Bool :=
  match hay with
  | [] => needle.isEmpty
  | _ :: t => pyStarts needle hay || pyContains t needle

/-- Numeric value of a digit string (most significant digit first). -/
def digitsVal (s : Str) : Nat :=
  s.foldl (fun a c => a * 10 + (c.toNat - 48)) 0

/-- Euclid's algorithm with an explicit fuel so that it is structurally
recursive (and hence kernel-executable). -/
def gcdAux : Nat → Nat → Nat → Nat
  | 0, _, b => b
  | f + 1, a, b => if a = 0 then b else gcdAux f (b % a) a

/-- Greatest common divisor via `gcdAux` (fuel `a + 1` suffices since the
first argument strictly decreases). -/
def natGcd (a b : Nat) : Nat := gcdAux (a + 1) a b

/-- An exact rational: the embedding of a Python float value.  Arithmetic
on these values is exact; the source's IEEE-754 rounding is not modelled. -/
structure PyRat where
  num : Int
  den : Nat
  deriving DecidableEq, Repr

/-- Build a `PyRat` in lowest terms from a numerator and a denominator. -/
def qNorm (n : Int) (d : Nat) : PyRat :=
  if d = 0 then ⟨0, 1⟩
  else
    let g := natGcd n.natAbs d
    ⟨n / (g : Int), d / g⟩

/-- The rational `0`. -/
def qZero : PyRat := ⟨0, 1⟩

/-- Embed a natural number. -/
def qOfNat (n : Nat) : PyRat := ⟨(n : Int), 1⟩

/-- Python `+` on floats. -/
def qAdd (a b : PyRat) : PyRat :=
  qNorm (a.num * (b.den : Int) + b.num * (a.den : Int)) (a.den * b.den)

/-- Python `/` of a float by a (positive) integer count. -/
def qDivNat (a : PyRat) (m : Nat) : PyRat := qNorm a.num (a.den * m)

/-- Python `<=` on floats. -/
def qLe (a b : PyRat) : Bool :=
  decide (a.num * (b.den : Int) ≤ b.num * (a.den : Int))

/-- Python `round(x, 2)`: round half to even at two decimal places,
computed on the exact value. -/
def qRound2 (a : PyRat) : PyRat :=
  let n : Int := a.num * 100
  let d : Int := (a.den : Int)
  let f : Int := n / d
  let r : Int := n - f * d
  let h : Int :=
    if 2 * r < d then f
    else if d < 2 * r then f + 1
    else if f % 2 = 0 then f else f + 1
  qNorm h 100

/-- Value of a `PyRat` as a Mathlib rational. -/
def toRat (a : PyRat) : ℚ := (a.num : ℚ) / (a.den : ℚ)

/-- Python `float(s)`: parse an optionally signed decimal literal with an
optional fraction and an optional decimal exponent, exactly.  (The
special literals `inf`/`nan` and underscore digit separators are not
modelled; no mark ever takes those forms.) -/
def pyFloat (s0 : Str) : Option PyRat :=
  let s := pyStrip s0
  let sgnRest : Int × Str :=
    match s with
    | '+' :: r => (1, r)
    | '-' :: r => (-1, r)
    | r => (1, r)
  let sgn := sgnRest.1
  let ipRest := sgnRest.2.span Char.isDigit
  let ip := ipRest.1
  let fpRest : Str × Str :=
    match ipRest.2 with
    | '.' :: r => r.span Char.isDigit
    | r => ([], r)
  let fp := fpRest.1
  if ip.isEmpty && fp.isEmpty then none
  else
    let expn : Option Int :=
      match fpRest.2 with
      | [] => some 0
      | c :: r3 =>
        if c == 'e' || c == 'E' then
          let esRest : Int × Str :=
            match r3 with
            | '+' :: r => (1, r)
            | '-' :: r => (-1, r)
            | r => (1, r)
          let edRest := esRest.2.span Char.isDigit
          if edRest.1.isEmpty || !edRest.2.isEmpty then none
          else some (esRest.1 * (digitsVal edRest.1 : Int))
        else none
    match expn with
    | none => none
    | some e =>
      let mant : Int := sgn * (digitsVal (ip ++ fp) : Int)
      let k : Int := e - (fp.length : Int)
      if 0 ≤ k then some (qNorm (mant * (10 : Int) ^ k.toNat) 1)
      else some (qNorm mant ((10 : Nat) ^ (-k).toNat))

/-- Decimal digits of a natural number, via fuel (most significant first). -/
def natDigitsAux : Nat → Nat → Str
  | 0, _ => []
  | f + 1, n =>
    if n = 0 then [] else natDigitsAux f (n / 10) ++ [Char.ofNat (n % 10 + 48)]

/-- Python `str` of a natural number. -/
def natToStr (n : Nat) : Str :=
  if n = 0 then ['0'] else natDigitsAux (n + 1) n

/-- Smallest exponent `k` with `d ∣ 10 ^ k` (`none` when there is none). -/
def decExp (d : Nat) : Option Nat :=
  (List.range (d + 1)).find? (fun k => 10 ^ k % d = 0)

/-- Python `str(x)` for a float `x`: sign, integer part, `'.'`, fractional
digits; a whole value prints with a trailing `.0`, and the shortest exact
decimal expansion is printed otherwise (matching `repr` of doubles on the
short decimal values the application handles; the scientific notation used
for very large or tiny magnitudes is not modelled). -/
def formatFloat (q : PyRat) : Str :=
  let sgn : Str := if q.num < 0 then ['-'] else []
  match decExp q.den with
  | none => sgn ++ natToStr q.num.natAbs ++ ['.', '0']
  | some k =>
    if k = 0 then sgn ++ natToStr q.num.natAbs ++ ['.', '0']
    else
      let scaled : Nat := q.num.natAbs * (10 ^ k / q.den)
      let ipart := scaled / 10 ^ k
      let fpart := scaled % 10 ^ k
      let fdigits := natToStr fpart
      sgn ++ natToStr ipart ++ ['.'] ++
        (List.replicate (k - fdigits.length) '0' ++ fdigits)

/-- The string a stored mark loads back as: `str(mark)` for a present
`REAL`, `""` for SQL `NULL`. -/
def renderMark : Option PyRat → Str
  | some q => formatFloat q
  | none => []

/-- The in-memory record (`class Student` of `st10.py`). -/
structure Student where
  uid : Str
  name : Str
  student_class : Str
  section' : Str
  subjects : List Str
  marks : List Str
  image_filename : Str
  deriving DecidableEq, Repr

/-- A row of the `students` table
(`uid TEXT PRIMARY KEY, name, student_class, section, image_filename`). -/
structure StudentRow where
  uid : Str
  name : Str
  student_class : Str
  section' : Str
  image_filename : Str
  deriving DecidableEq, Repr

/-- A row of the `subjects` table (`id INTEGER PRIMARY KEY AUTOINCREMENT,
name TEXT NOT NULL UNIQUE`). -/
structure SubjectRow where
  id : Nat
  name : Str
  deriving DecidableEq, Repr

/-- A row of the `student_subjects` link table (`student_uid`, `subject_id`,
`mark REAL`); the surrogate `id` column is never consulted by any query, so
it is not modelled — list position stands for rowid order. -/
structure LinkRow where
  student_uid : Str
  subject_id : Nat
  mark : Option PyRat
  deriving DecidableEq, Repr

/-- The database state: the three tables (rows in rowid order) and the
`AUTOINCREMENT` counter of `subjects`. -/
structure DB where
  students : List StudentRow
  subjects : List SubjectRow
  nextSubjectId : Nat
  links : List LinkRow
  deriving DecidableEq, Repr

/-- The state right after `_init_db` on a fresh file. -/
def emptyDB : DB := ⟨[], [], 1, []⟩

/-- The sqlite3 connection: the last committed state and the state the
cursor sees (its own uncommitted writes included). -/
structure Conn where
  committed : DB
  cur : DB
  deriving DecidableEq, Repr

/-- A freshly opened connection on database state `db`. -/
def connOn (db : DB) : Conn := ⟨db, db⟩

/-- `INSERT OR REPLACE INTO students`: the conflicting row (if any) is
deleted and the new row is inserted with a fresh rowid, i.e. at the end.
(The cascade the replace-delete would fire on `student_subjects` is not
modelled separately: the statement that follows it inside the same
transaction deletes exactly those link rows before any commit point.) -/
def replaceStudentRow (st : Student) (db : DB) : DB :=
  { db with
    students :=
      db.students.filter (fun r => !(r.uid == st.uid)) ++
        [⟨st.uid, st.name, st.student_class, st.section', st.image_filename⟩] }

/-- `DELETE FROM student_subjects WHERE student_uid = ?`. -/
def deleteLinksOf (uid : Str) (db : DB) : DB :=
  { db with links := db.links.filter (fun l => !(l.student_uid == uid)) }

/-- `INSERT OR IGNORE INTO subjects (name) VALUES (?)`. -/
def insertSubjectIfAbsent (name : Str) (db : DB) : DB :=
  if db.subjects.any (fun s => s.name == name) then db
  else
    { db with
      subjects := db.subjects ++ [⟨db.nextSubjectId, name⟩],
      nextSubjectId := db.nextSubjectId + 1 }

/-- `SELECT id FROM subjects WHERE name = ?` (first row). -/
def findSubjectId (name : Str) (db : DB) : Option Nat :=
  (db.subjects.find? (fun s => s.name == name)).map SubjectRow.id

/-- `INSERT INTO student_subjects (student_uid, subject_id, mark)`. -/
def insertLink (l : LinkRow) (db : DB) : DB :=
  { db with links := db.links ++ [l] }

/-- `DELETE FROM students WHERE <cond>`: the schema's
`ON DELETE CASCADE` (with `PRAGMA foreign_keys = ON`) also removes the
link rows of every deleted student. -/
def deleteStudentsWhere (cond : StudentRow → Bool) (db : DB) : DB :=
  let removed := db.students.filter cond
  { db with
    students := db.students.filter (fun r => !cond r),
    links :=
      db.links.filter (fun l => !(removed.any (fun r => r.uid == l.student_uid))) }

/-- `_get_subject_id`: return the subject id for a name, inserting the
subject if needed.  The body runs inside its own `with self.conn:` block;
when `db_upsert_student_normalized` calls it mid-transaction, the normal
exit of this block commits everything executed so far.  A database error
(fault index `k`) is caught locally (`except` shows a message box and
returns `None`), after rolling back to the committed state.  Returns the
id (or `none`), the connection, and the next statement counter. -/
def _get_subject_id (name : Str) (fa : Option Nat) (k : Nat) (c : Conn) :
    Option Nat × Conn × Nat :=
  let n := pyStrip name
  if n.isEmpty then (none, c, k)
  else if fa = some k then
    (none, { c with cur := c.committed }, k + 1)
  else
    let cur1 := insertSubjectIfAbsent n c.cur
    (findSubjectId n cur1, ⟨cur1, cur1⟩, k + 1)

/-- The `for subj, mk in zip(student.subjects, student.marks):` loop of
`db_upsert_student_normalized`: resolve each subject id (skipping the pair
when it is `None`), coerce the mark with `float` (`None` on failure), and
insert the link row.  A fault at the link `INSERT` raises out of the loop
(first component `false`). -/
def upsertLinks (uid : Str) :
    List (Str × Str) → Option Nat → Nat → Conn → Bool × Conn × Nat
  | [], _, k, c => (true, c, k)
  | (subj, mk) :: rest, fa, k, c =>
    match _get_subject_id subj fa k c with
    | (none, c1, k1) => upsertLinks uid rest fa k1 c1
    | (some sid, c1, k1) =>
      if fa = some k1 then (false, c1, k1 + 1)
      else
        upsertLinks uid rest fa (k1 + 1)
          { c1 with cur := insertLink ⟨uid, sid, pyFloat mk⟩ c1.cur }

/-- `db_upsert_student_normalized`: inside `with self.conn:`, replace the
student's metadata row (statement 0), delete its old link rows
(statement 1), then run the link loop (statements 2, 3, ...).  Normal exit
commits; an escaping exception rolls back to the committed state and is
caught by the surrounding `except` (message box, no retry). -/
def db_upsert_student_normalized (st : Student) (fa : Option Nat) (c : Conn) :
    Conn :=
  if fa = some 0 then { c with cur := c.committed }
  else
    let c1 := { c with cur := replaceStudentRow st c.cur }
    if fa = some 1 then { c1 with cur := c1.committed }
    else
      let c2 := { c1 with cur := deleteLinksOf st.uid c1.cur }
      let r := upsertLinks st.uid (st.subjects.zip st.marks) fa 2 c2
      if r.1 then { r.2.1 with committed := r.2.1.cur }
      else { r.2.1 with cur := r.2.1.committed }

/-- `db_delete_student_normalized`: `DELETE FROM students WHERE uid = ?`
inside `with self.conn:` (link rows cascade), then commit. -/
def db_delete_student_normalized (uid : Str) (c : Conn) : Conn :=
  let cur1 := deleteStudentsWhere (fun r => r.uid == uid) c.cur
  ⟨cur1, cur1⟩

/-- The per-student `SELECT sub.name, ss.mark FROM student_subjects ss
JOIN subjects sub ON ss.subject_id = sub.id WHERE ss.student_uid = ?
ORDER BY sub.name` of `load_data`: the inner join drops link rows whose
subject id resolves to no subject row. -/
def joinedPairs (db : DB) (uid : Str) : List (Str × Option PyRat) :=
  (db.links.filter (fun l => l.student_uid == uid)).filterMap
    (fun l => (db.subjects.find? (fun s => s.id == l.subject_id)).map
      (fun s => (s.name, l.mark)))

/-- `a < b` on Python strings (sqlite `BINARY` collation on the ASCII
data the application stores). -/
def strLt : Str → Str → Bool
  | [], [] => false
  | [], _ :: _ => true
  | _ :: _, [] => false
  | a :: as, b :: bs => a < b || (a == b && strLt as bs)

/-- Insert a pair into a name-ordered list, after any equal names
(stable). -/
def insertByName (x : Str × Option PyRat) :
    List (Str × Option PyRat) → List (Str × Option PyRat)
  | [] => [x]
  | y :: ys => if strLt x.1 y.1 then x :: y :: ys else y :: insertByName x ys

/-- `ORDER BY sub.name` (ascending, stable on the scan order for equal
names — sqlite leaves the order of equal keys unspecified). -/
def sortByName (l : List (Str × Option PyRat)) : List (Str × Option PyRat) :=
  l.foldl (fun acc x => insertByName x acc) []

/-- `load_data`: rebuild the in-memory list from the store — one `Student`
per `students` row (in rowid order), its subject/mark pairs from the
ordered join, marks rendered back to strings (`str(mark)`, `""` for
`NULL`). -/
def load_data (db : DB) : List Student :=
  db.students.map (fun r =>
    let pairs := sortByName (joinedPairs db r.uid)
    ⟨r.uid, r.name, r.student_class, r.section',
      pairs.map Prod.fst, pairs.map (fun p => renderMark p.2),
      r.image_filename⟩)

/-- The per-student upsert pass of `save_data`: each student is written by
`db_upsert_student_normalized` in its own transaction, with its own fault
choice (a database error inside one upsert is caught there and the loop
continues with the next student). -/
def upsertAll : List Student → List (Option Nat) → Conn → Conn
  | [], _, c => c
  | s :: rest, fas, c =>
    upsertAll rest fas.tail (db_upsert_student_normalized s (fas.headD none) c)

/-- `save_data`: upsert every in-memory student, then — in a final
`with self.conn:` transaction — delete every stored student whose uid is
not in the in-memory list (`DELETE FROM students` when the list is empty),
and commit. -/
def save_data (students : List Student) (fas : List (Option Nat)) (c : Conn) :
    Conn :=
  let in_memory_uids := students.map Student.uid
  let c1 := upsertAll students fas c
  let cur2 :=
    if !in_memory_uids.isEmpty then
      deleteStudentsWhere (fun r => !(in_memory_uids.contains r.uid)) c1.cur
    else
      deleteStudentsWhere (fun _ => true) c1.cur
  ⟨cur2, cur2⟩

/-- The combined lowercase search string of one student
(`" ".join([uid, name, class, section, " ".join(subjects),
" ".join(marks)]).lower()`). -/
def combinedOf (s : Student) : Str :=
  pyLower (pyJoin (pyStr " ")
    [s.uid, s.name, s.student_class, s.section',
      pyJoin (pyStr " ") s.subjects, pyJoin (pyStr " ") s.marks])

/-- `search_students`: an empty (stripped, lowered) query refreshes the
full table.  Otherwise the source computes `combined` inside the loop but
tests membership after it, so only the last student is ever examined — and
with no students at all the name `combined` is unbound (`NameError`,
result `none`). -/
def search_students (q0 : Str) (students : List Student) :
    Option (List Student) :=
  let q := pyLower (pyStrip q0)
  if q.isEmpty then some students
  else
    match students.getLast? with
    | none => none
    | some s => some (if pyContains (combinedOf s) q then [s] else [])

/-- `_avg_of`: `None` for an empty mark list; otherwise the marks that are
not `""` are converted with `float` (any failure raises, caught as `None`);
`None` again when nothing remains, else the mean rounded to 2 places. -/
def _avg_of (st : Student) : Option PyRat :=
  if st.marks.isEmpty then none
  else
    let nonEmpty := st.marks.filter (fun x => !x.isEmpty)
    if nonEmpty.any (fun x => (pyFloat x).isNone) then none
    else
      let vals := nonEmpty.filterMap pyFloat
      if vals.isEmpty then none
      else some (qRound2 (qDivNat (vals.foldl qAdd qZero) vals.length))

/-- `_grade_of`: `"N/A"` for no average, `"A"` from 90, `"B"` from 75,
else `"C"`. -/
def _grade_of (avg : Option PyRat) : Str :=
  match avg with
  | none => pyStr "N/A"
  | some a =>
    if qLe (qOfNat 90) a then pyStr "A"
    else if qLe (qOfNat 75) a then pyStr "B"
    else pyStr "C"

/-- Which button opened `_student_form`. -/
inductive Mode where
  | add
  | update
  deriving DecidableEq, Repr

/-- The entry widgets of `_student_form`, plus the relative image path the
photo block produces (`""` when no photo was chosen; the file copy itself
is a filesystem effect outside the store). -/
structure FormInput where
  uidE : Str
  nameE : Str
  classE : Str
  sectionE : Str
  subjectsE : Str
  marksE : Str
  imageRel : Str
  deriving DecidableEq, Repr

/-- A comma-separated entry parsed as in `save`: split on `","`, strip each
piece, drop the empty ones. -/
def splitField (s : Str) : List Str :=
  ((pySplitComma s).map pyStrip).filter (fun x => !x.isEmpty)

/-- The mark-validation loop of `save`: each entered mark is converted with
`str(float(m))`; a `ValueError` aborts the whole save. -/
def parseMarks : List Str → Option (List Str)
  | [] => some []
  | m :: rest =>
    match pyFloat m with
    | none => none
    | some q => (parseMarks rest).map (fun tl => formatFloat q :: tl)

/-- The `else` (update) branch of `save`: find the first in-memory student
with the form's uid, overwrite its fields (the image only when a new one
was chosen), and return the updated record for the upsert. -/
def applyUpdate (uid name cls sec : Str) (subjects marks : List Str)
    (img : Str) : List Student → Option (List Student × Student)
  | [] => none
  | s :: rest =>
    if s.uid == uid then
      let s' : Student :=
        ⟨s.uid, name, cls, sec, subjects, marks,
          if !img.isEmpty then img else s.image_filename⟩
      some (s' :: rest, s')
    else
      (applyUpdate uid name cls sec subjects marks img rest).map
        (fun p => (s :: p.1, p.2))

/-- The body of the `save` closure of `_student_form`, up to (and
including) the in-memory mutation and the database upsert: validation of
required fields, of the subject/mark counts, and of the marks; then the
add-or-update action.  Returns the message of the `showerror` that blocked
the save (`none` when it succeeded) together with the student list and the
connection as they stand at that point. -/
def student_form_save_core (mode : Mode) (inp : FormInput)
    (students : List Student) (c : Conn) :
    Option String × List Student × Conn :=
  let uid := pyStrip inp.uidE
  let name := pyStrip inp.nameE
  let student_class := pyStrip inp.classE
  let sec := pyStrip inp.sectionE
  let subjects := splitField inp.subjectsE
  let marks_input := splitField inp.marksE
  if !(!uid.isEmpty && !name.isEmpty && !student_class.isEmpty) then
    (some "UID, Name and Class are required.", students, c)
  else if !subjects.isEmpty && subjects.length ≠ marks_input.length then
    (some "Number of subjects and marks must match.", students, c)
  else
    match parseMarks marks_input with
    | none => (some "Marks must be numeric.", students, c)
    | some marks =>
      match mode with
      | .add =>
        if students.any (fun s => s.uid == uid) then
          (some "UID already exists.", students, c)
        else
          let new : Student :=
            ⟨uid, name, student_class, sec, subjects, marks, inp.imageRel⟩
          (none, students ++ [new],
            db_upsert_student_normalized new none c)
      | .update =>
        match applyUpdate uid name student_class sec subjects marks
            inp.imageRel students with
        | none => (some "Student not found in memory.", students, c)
        | some (students', s') =>
          (none, students', db_upsert_student_normalized s' none c)

/-- The whole `save` closure: on a validation error it returns before any
mutation; on success it ends with `self.load_data()`, which rebuilds the
in-memory list from the store. -/
def student_form_save (mode : Mode) (inp : FormInput)
    (students : List Student) (c : Conn) :
    Option String × List Student × Conn :=
  match student_form_save_core mode inp students c with
  | (some e, st, c') => (some e, st, c')
  | (none, _, c') => (none, load_data c'.cur, c')

/-! ### The `PyRat` arithmetic computes exact rational arithmetic -/

theorem gcdAux_eq (f : Nat) : ∀ a b : Nat, a ≤ f → gcdAux f a b = Nat.gcd a b := by
  induction f with
  | zero =>
    intro a b ha
    interval_cases a
    simp [gcdAux]
  | succ f ih =>
    intro a b _
    by_cases h : a = 0
    · subst h; simp [gcdAux]
    · have hlt : b % a ≤ f := by
        have := Nat.mod_lt b (Nat.pos_of_ne_zero h)
        omega
      rw [gcdAux, if_neg h, ih (b % a) a hlt]
      exact (Nat.gcd_rec a b).symm

theorem natGcd_eq (a b : Nat) : natGcd a b = Nat.gcd a b :=
  gcdAux_eq (a + 1) a b (Nat.le_succ a)

theorem qNorm_den_ne (n : Int) (d : Nat) : (qNorm n d).den ≠ 0 := by
  unfold qNorm
  by_cases hd : d = 0
  · simp [hd]
  · rw [if_neg hd]
    simp only [natGcd_eq]
    have key : ∀ g : Nat, g ≠ 0 → g ∣ d → d / g ≠ 0 := by
      intro g hg hdvd
      obtain ⟨d', rfl⟩ := hdvd
      have hd' : d' ≠ 0 := by rintro rfl; exact hd (by ring)
      rw [Nat.mul_div_cancel_left _ (Nat.pos_of_ne_zero hg)]
      exact hd'
    exact key _ (fun h => hd (Nat.gcd_eq_zero_iff.mp h).2) (Nat.gcd_dvd_right _ _)

theorem toRat_qNorm (n : Int) (d : Nat) (hd : d ≠ 0) :
    toRat (qNorm n d) = (n : ℚ) / (d : ℚ) := by
  unfold qNorm
  rw [if_neg hd]
  simp only [natGcd_eq]
  have key : ∀ g : Nat, g ≠ 0 → g ∣ n.natAbs → g ∣ d →
      toRat ⟨n / (g : Int), d / g⟩ = (n : ℚ) / (d : ℚ) := by
    intro g hg hgn hgd
    obtain ⟨n', hn'⟩ : ((g : ℤ)) ∣ n :=
      Int.dvd_natAbs.mp (Int.natCast_dvd_natCast.mpr hgn)
    obtain ⟨d', hd'⟩ := hgd
    have hgz : ((g : ℤ)) ≠ 0 := Int.natCast_ne_zero.mpr hg
    have hnum : n / (g : ℤ) = n' := by
      rw [hn', Int.mul_ediv_cancel_left _ hgz]
    have hden : d / g = d' := by
      rw [hd', Nat.mul_div_cancel_left _ (Nat.pos_of_ne_zero hg)]
    unfold toRat
    simp only [hnum, hden]
    rw [hn', hd']
    have hgq : ((g : ℚ)) ≠ 0 := Nat.cast_ne_zero.mpr hg
    push_cast
    rw [mul_div_mul_left _ _ hgq]
  exact key _ (fun h => hd (Nat.gcd_eq_zero_iff.mp h).2)
    (Nat.gcd_dvd_left _ _) (Nat.gcd_dvd_right _ _)

theorem toRat_qZero : toRat qZero = 0 := by
  simp [toRat, qZero]

theorem toRat_qOfNat (n : Nat) : toRat (qOfNat n) = (n : ℚ) := by
  simp [toRat, qOfNat]

theorem qOfNat_den_ne (n : Nat) : (qOfNat n).den ≠ 0 := by
  simp [qOfNat]

theorem qAdd_den_ne (a b : PyRat) : (qAdd a b).den ≠ 0 :=
  qNorm_den_ne _ _

theorem qDivNat_den_ne (a : PyRat) (m : Nat) : (qDivNat a m).den ≠ 0 :=
  qNorm_den_ne _ _

theorem toRat_qAdd (a b : PyRat) (ha : a.den ≠ 0) (hb : b.den ≠ 0) :
    toRat (qAdd a b) = toRat a + toRat b := by
  unfold qAdd
  rw [toRat_qNorm _ _ (Nat.mul_ne_zero ha hb)]
  unfold toRat
  have ha' : ((a.den : ℚ)) ≠ 0 := Nat.cast_ne_zero.mpr ha
  have hb' : ((b.den : ℚ)) ≠ 0 := Nat.cast_ne_zero.mpr hb
  field_simp
  try push_cast
  try ring

theorem toRat_qDivNat (a : PyRat) (m : Nat) (ha : a.den ≠ 0) (hm : m ≠ 0) :
    toRat (qDivNat a m) = toRat a / (m : ℚ) := by
  unfold qDivNat
  rw [toRat_qNorm _ _ (Nat.mul_ne_zero ha hm)]
  unfold toRat
  push_cast
  rw [div_div]

theorem qLe_iff (a b : PyRat) (ha : a.den ≠ 0) (hb : b.den ≠ 0) :
    qLe a b = true ↔ toRat a ≤ toRat b := by
  unfold qLe toRat
  rw [decide_eq_true_iff]
  have ha' : (0 : ℚ) < (a.den : ℚ) :=
    Nat.cast_pos.mpr (Nat.pos_of_ne_zero ha)
  have hb' : (0 : ℚ) < (b.den : ℚ) :=
    Nat.cast_pos.mpr (Nat.pos_of_ne_zero hb)
  rw [div_le_div_iff₀ ha' hb']
  constructor
  · intro h
    have h' : ((a.num * b.den : ℤ) : ℚ) ≤ ((b.num * a.den : ℤ) : ℚ) :=
      Int.cast_le.mpr h
    push_cast at h'
    linarith
  · intro h
    have h' : ((a.num * b.den : ℤ) : ℚ) ≤ ((b.num * a.den : ℤ) : ℚ) := by
      push_cast
      linarith
    exact Int.cast_le.mp h'

/-- Rounding half to even at two decimal places, stated over `ℚ`: the
specification-side meaning of Python's `round(x, 2)` on exact values. -/
def specRound2 (x : ℚ) : ℚ :=
  let y := 100 * x
  let f := ⌊y⌋
  let h : ℤ :=
    if y - f < 1 / 2 then f
    else if 1 / 2 < y - f then f + 1
    else if 2 ∣ f then f else f + 1
  (h : ℚ) / 100

theorem toRat_qRound2 (a : PyRat) (ha : a.den ≠ 0) :
    toRat (qRound2 a) = specRound2 (toRat a) := by
  have hdq : (0 : ℚ) < (a.den : ℚ) :=
    Nat.cast_pos.mpr (Nat.pos_of_ne_zero ha)
  have hy : 100 * toRat a = ((a.num * 100 : ℤ) : ℚ) / ((a.den : ℕ) : ℚ) := by
    unfold toRat
    push_cast
    ring
  have hfloor : ⌊100 * toRat a⌋ = (a.num * 100) / ((a.den : ℕ) : ℤ) := by
    rw [hy, Rat.floor_intCast_div_natCast]
  have hfr :
      100 * toRat a - (((a.num * 100) / ((a.den : ℕ) : ℤ) : ℤ) : ℚ) =
        ((a.num * 100 - (a.num * 100) / ((a.den : ℕ) : ℤ) * (a.den : ℤ) : ℤ) : ℚ) /
          ((a.den : ℕ) : ℚ) := by
    rw [hy]
    field_simp
    ring
  have e1 :
      100 * toRat a - (((a.num * 100) / ((a.den : ℕ) : ℤ) : ℤ) : ℚ) < 1 / 2 ↔
        2 * (a.num * 100 - (a.num * 100) / ((a.den : ℕ) : ℤ) * (a.den : ℤ)) <
          ((a.den : ℕ) : ℤ) := by
    rw [hfr, ← Int.cast_lt (R := ℚ)]
    rw [div_lt_div_iff₀ hdq (by norm_num : (0 : ℚ) < 2)]
    push_cast
    constructor <;> intro h <;> linarith
  have e2 :
      1 / 2 < 100 * toRat a - (((a.num * 100) / ((a.den : ℕ) : ℤ) : ℤ) : ℚ) ↔
        ((a.den : ℕ) : ℤ) <
          2 * (a.num * 100 - (a.num * 100) / ((a.den : ℕ) : ℤ) * (a.den : ℤ)) := by
    rw [hfr, ← Int.cast_lt (R := ℚ)]
    rw [div_lt_div_iff₀ (by norm_num : (0 : ℚ) < 2) hdq]
    push_cast
    constructor <;> intro h <;> linarith
  unfold qRound2 specRound2
  rw [toRat_qNorm _ _ (by norm_num)]
  simp only [hfloor, e1, e2, Int.dvd_iff_emod_eq_zero]
  norm_num

theorem pyFloat_den_ne (s : Str) (q : PyRat) (h : pyFloat s = some q) :
    q.den ≠ 0 := by
  simp only [pyFloat] at h
  repeat' split at h
  all_goals first
    | exact Option.noConfusion h
    | exact (Option.some.inj h) ▸ qNorm_den_ne _ _

/-! ### Claim theorems -/

/-- C8: for every non-`None` average `a`, `_grade_of` returns `"A"` when
`a ≥ 90`, `"B"` when `75 ≤ a < 90`, and `"C"` when `a < 75`. -/
theorem c8_grade_thresholds (a : PyRat) (ha : a.den ≠ 0) :
    ((90 : ℚ) ≤ toRat a → _grade_of (some a) = pyStr "A") ∧
    ((75 : ℚ) ≤ toRat a → toRat a < 90 → _grade_of (some a) = pyStr "B") ∧
    (toRat a < 75 → _grade_of (some a) = pyStr "C") := by
  have h90 := qLe_iff (qOfNat 90) a (qOfNat_den_ne _) ha
  have h75 := qLe_iff (qOfNat 75) a (qOfNat_den_ne _) ha
  rw [toRat_qOfNat] at h90 h75
  norm_num at h90 h75
  refine ⟨?_, ?_, ?_⟩
  · intro h
    simp only [_grade_of]
    rw [if_pos (h90.mpr h)]
  · intro h1 h2
    simp only [_grade_of]
    have hno : ¬ (qLe (qOfNat 90) a = true) := by
      rw [h90]; exact not_le.mpr h2
    rw [if_neg hno, if_pos (h75.mpr h1)]
  · intro h
    simp only [_grade_of]
    have hno90 : ¬ (qLe (qOfNat 90) a = true) := by
      rw [h90]; exact not_le.mpr (by linarith)
    have hno75 : ¬ (qLe (qOfNat 75) a = true) := by
      rw [h75]; exact not_le.mpr h
    rw [if_neg hno90, if_neg hno75]

/-- Witness for C8 at the averages 95, 80 and 60. -/
theorem c8_grade_thresholds_witness :
    _grade_of (some ⟨95, 1⟩) = pyStr "A" ∧
    _grade_of (some ⟨80, 1⟩) = pyStr "B" ∧
    _grade_of (some ⟨60, 1⟩) = pyStr "C" :=
  ⟨(c8_grade_thresholds ⟨95, 1⟩ (by decide)).1 (by norm_num [toRat]),
   (c8_grade_thresholds ⟨80, 1⟩ (by decide)).2.1 (by norm_num [toRat])
     (by norm_num [toRat]),
   (c8_grade_thresholds ⟨60, 1⟩ (by decide)).2.2 (by norm_num [toRat])⟩

theorem isEmpty_false_of_ne_nil {α : Type} {l : List α} (h : l ≠ []) :
    l.isEmpty = false := by
  cases l with
  | nil => exact absurd rfl h
  | cons a t => rfl

theorem toRat_foldl_qAdd (l : List PyRat) :
    ∀ acc : PyRat, acc.den ≠ 0 → (∀ q ∈ l, q.den ≠ 0) →
      toRat (l.foldl qAdd acc) = toRat acc + (l.map toRat).sum ∧
        (l.foldl qAdd acc).den ≠ 0 := by
  induction l with
  | nil => intro acc ha _; exact ⟨by simp, ha⟩
  | cons q l ih =>
    intro acc ha hl
    have hq : q.den ≠ 0 := hl q (List.mem_cons_self q l)
    have hl' : ∀ p ∈ l, p.den ≠ 0 := fun p hp => hl p (List.mem_cons_of_mem q hp)
    have hacc' : (qAdd acc q).den ≠ 0 := qAdd_den_ne _ _
    obtain ⟨h1, h2⟩ := ih (qAdd acc q) hacc' hl'
    refine ⟨?_, h2⟩
    simp only [List.foldl_cons, List.map_cons, List.sum_cons]
    rw [h1, toRat_qAdd acc q ha hq]
    ring

/-- C5: for every student whose marks are numeric (empty entries being
skipped as the code does), `_avg_of` returns the arithmetic mean of the
parsed marks rounded half-even to two decimal places; for an empty mark
list it returns `None` and `_grade_of` then yields `"N/A"`. -/
theorem c5_average_mean_empty_grade :
    (∀ st : Student, st.marks = [] →
        _avg_of st = none ∧ _grade_of (_avg_of st) = pyStr "N/A") ∧
    ∀ st : Student,
      (∀ m ∈ st.marks, m ≠ [] → (pyFloat m).isSome) →
      (st.marks.filter (fun x => !x.isEmpty)).filterMap pyFloat ≠ [] →
      ∃ a, _avg_of st = some a ∧
        toRat a =
          specRound2
            ((((st.marks.filter (fun x => !x.isEmpty)).filterMap pyFloat).map
                toRat).sum /
              ((((st.marks.filter (fun x => !x.isEmpty)).filterMap
                  pyFloat).length : ℚ))) := by
  constructor
  · intro st h
    constructor
    · simp [_avg_of, h]
    · simp [_avg_of, h, _grade_of]
  · intro st hparse hvne
    have hmne : st.marks ≠ [] := by
      intro h
      apply hvne
      simp [h]
    have h1 : st.marks.isEmpty = false := isEmpty_false_of_ne_nil hmne
    have h2 : (st.marks.filter (fun x => !x.isEmpty)).any
        (fun x => (pyFloat x).isNone) = false := by
      rw [List.any_eq_false]
      intro x hx
      obtain ⟨hxm, hxne⟩ := List.mem_filter.mp hx
      have : x ≠ [] := by
        intro h
        rw [h] at hxne
        simp at hxne
      have := hparse x hxm this
      rcases hy : pyFloat x with _ | y
      · rw [hy] at this; simp at this
      · simp [hy]
    have h3 : ((st.marks.filter (fun x => !x.isEmpty)).filterMap
        pyFloat).isEmpty = false := isEmpty_false_of_ne_nil hvne
    have havg : _avg_of st =
        some (qRound2 (qDivNat
          (((st.marks.filter (fun x => !x.isEmpty)).filterMap pyFloat).foldl
            qAdd qZero)
          ((st.marks.filter (fun x => !x.isEmpty)).filterMap pyFloat).length)) := by
      simp only [_avg_of, h1, h2, h3, Bool.false_eq_true, if_false]
    refine ⟨_, havg, ?_⟩
    have hdens : ∀ q ∈ (st.marks.filter (fun x => !x.isEmpty)).filterMap pyFloat,
        q.den ≠ 0 := by
      intro q hq
      obtain ⟨m, _, hm2⟩ := List.mem_filterMap.mp hq
      exact pyFloat_den_ne m q hm2
    obtain ⟨hsum, hsden⟩ :=
      toRat_foldl_qAdd _ qZero (by simp [qZero]) hdens
    have hlen : ((st.marks.filter (fun x => !x.isEmpty)).filterMap
        pyFloat).length ≠ 0 := by
      simpa [List.length_eq_zero] using hvne
    rw [toRat_qRound2 _ (qDivNat_den_ne _ _),
      toRat_qDivNat _ _ hsden hlen, hsum, toRat_qZero, zero_add]

/-- Witness for C5: the empty-marks case, and the student with marks
`70, 80, 82` whose average computes to the rounded mean `77.33`. -/
theorem c5_average_mean_empty_grade_witness :
    (_avg_of ⟨[], [], [], [], [], [], []⟩ = none ∧
      _grade_of (_avg_of ⟨[], [], [], [], [], [], []⟩) = pyStr "N/A") ∧
    ∃ a,
      _avg_of ⟨pyStr "1", pyStr "n", pyStr "c", [], [],
        [pyStr "70", pyStr "80", pyStr "82"], []⟩ = some a ∧
      toRat a =
        specRound2
          ((((([pyStr "70", pyStr "80", pyStr "82"]).filter
                (fun x => !x.isEmpty)).filterMap pyFloat).map toRat).sum /
            ((((([pyStr "70", pyStr "80", pyStr "82"]).filter
                (fun x => !x.isEmpty)).filterMap pyFloat).length : ℚ))) :=
  ⟨c5_average_mean_empty_grade.1 _ rfl,
   c5_average_mean_empty_grade.2
     ⟨pyStr "1", pyStr "n", pyStr "c", [], [],
       [pyStr "70", pyStr "80", pyStr "82"], []⟩
     (by decide) (by decide)⟩

/-- C1 (refuted — evaluation of the code at the failing input): upserting
student `u1` (one subject `Math`, new mark `90`) over a store in which `u1`
has the link `(Math, 85)`, with the link `INSERT` (write statement 3)
failing, leaves a committed store whose link table is empty — neither the
old state (mark 85) nor the new one (mark 90).  The inner
`with self.conn:` of `_get_subject_id` committed the metadata replace and
the link deletion midway, so the rollback at the error could not restore
them: the write is not all-or-nothing. -/
theorem c1_upsert_commits_partial_state :
    (db_upsert_student_normalized
          ⟨pyStr "u1", pyStr "n", pyStr "c", pyStr "s",
            [pyStr "Math"], [pyStr "90"], []⟩ (some 3)
          (connOn ⟨[⟨pyStr "u1", pyStr "n", pyStr "c", pyStr "s", []⟩],
            [⟨1, pyStr "Math"⟩], 2,
            [⟨pyStr "u1", 1, some ⟨85, 1⟩⟩]⟩)).committed.links = [] ∧
    (db_upsert_student_normalized
          ⟨pyStr "u1", pyStr "n", pyStr "c", pyStr "s",
            [pyStr "Math"], [pyStr "90"], []⟩ none
          (connOn ⟨[⟨pyStr "u1", pyStr "n", pyStr "c", pyStr "s", []⟩],
            [⟨1, pyStr "Math"⟩], 2,
            [⟨pyStr "u1", 1, some ⟨85, 1⟩⟩]⟩)).committed.links =
      [⟨pyStr "u1", 1, some ⟨90, 1⟩⟩] ∧
    (db_upsert_student_normalized
          ⟨pyStr "u1", pyStr "n", pyStr "c", pyStr "s",
            [pyStr "Math"], [pyStr "90"], []⟩ (some 3)
          (connOn ⟨[⟨pyStr "u1", pyStr "n", pyStr "c", pyStr "s", []⟩],
            [⟨1, pyStr "Math"⟩], 2,
            [⟨pyStr "u1", 1, some ⟨85, 1⟩⟩]⟩)).committed ≠
      ⟨[⟨pyStr "u1", pyStr "n", pyStr "c", pyStr "s", []⟩],
        [⟨1, pyStr "Math"⟩], 2, [⟨pyStr "u1", 1, some ⟨85, 1⟩⟩]⟩ := by
  decide

/-- C3 (refuted — evaluation of the code at the failing input): searching
`"alice"` over `[alice, bob]` returns no rows although `alice`'s combined
fields contain the query (the membership test sits outside the `for` loop,
so only the last student is ever examined); with an empty student list the
loop variable `combined` is never bound and the lookup raises `NameError`. -/
theorem c3_search_ignores_all_but_last :
    search_students (pyStr "alice")
        [⟨pyStr "1", pyStr "alice", pyStr "c", pyStr "s", [], [], []⟩,
          ⟨pyStr "2", pyStr "bob", pyStr "c", pyStr "s", [], [], []⟩] =
      some [] ∧
    pyContains
        (combinedOf ⟨pyStr "1", pyStr "alice", pyStr "c", pyStr "s", [], [], []⟩)
        (pyLower (pyStrip (pyStr "alice"))) = true ∧
    search_students (pyStr "alice") [] = none := by
  decide

/-- C4 (refuted — evaluation of the code at the failing input): an add-form
submission with an empty Subjects entry and Marks `"85"` is accepted (the
`if subjects and ...` guard skips the count check when the subject list is
empty), creating and storing a student whose subject list is empty while
its mark list is `["85.0"]`; after the upsert and reload the entered mark
has silently vanished. -/
theorem c4_form_save_accepts_unequal_lists :
    (student_form_save_core .add
        ⟨pyStr "1", pyStr "n", pyStr "c", [], [], pyStr "85", []⟩ []
        (connOn emptyDB)).1 = none ∧
    (student_form_save_core .add
        ⟨pyStr "1", pyStr "n", pyStr "c", [], [], pyStr "85", []⟩ []
        (connOn emptyDB)).2.1 =
      [⟨pyStr "1", pyStr "n", pyStr "c", [], [], [pyStr "85.0"], []⟩] ∧
    (student_form_save .add
        ⟨pyStr "1", pyStr "n", pyStr "c", [], [], pyStr "85", []⟩ []
        (connOn emptyDB)).2.1 =
      [⟨pyStr "1", pyStr "n", pyStr "c", [], [], [], []⟩] := by
  decide

theorem parseMarks_eq_none {l : List Str} {m : Str} (hm : m ∈ l)
    (hbad : pyFloat m = none) : parseMarks l = none := by
  induction l with
  | nil => cases hm
  | cons a t ih =>
    rcases List.mem_cons.mp hm with rfl | hmt
    · simp [parseMarks, hbad]
    · cases h : pyFloat a with
      | none => simp [parseMarks, h]
      | some q => simp [parseMarks, h, ih hmt]

theorem form_core_blocked_on_bad_mark (mode : Mode) (inp : FormInput)
    (students : List Student) (c : Conn) {m : Str}
    (hm : m ∈ splitField inp.marksE) (hbad : pyFloat m = none) :
    ∃ e, student_form_save_core mode inp students c = (some e, students, c) := by
  have hpm := parseMarks_eq_none hm hbad
  unfold student_form_save_core
  simp only [hpm]
  split_ifs <;> exact ⟨_, rfl⟩

/-- C9: whenever some entered mark does not parse as a number, the form's
save action returns a validation error and leaves both the in-memory
student list and the connection exactly as they were. -/
theorem c9_bad_mark_blocks_save (mode : Mode) (inp : FormInput)
    (students : List Student) (c : Conn) (m : Str)
    (hm : m ∈ splitField inp.marksE) (hbad : pyFloat m = none) :
    ∃ e, student_form_save mode inp students c = (some e, students, c) := by
  obtain ⟨e, he⟩ := form_core_blocked_on_bad_mark mode inp students c hm hbad
  exact ⟨e, by unfold student_form_save; rw [he]⟩

/-- Witness for C9: the mark entry `"xy"` blocks an add-form save. -/
theorem c9_bad_mark_blocks_save_witness :
    pyStr "xy" ∈ splitField (pyStr "xy") ∧ pyFloat (pyStr "xy") = none ∧
    ∃ e, student_form_save .add
        ⟨pyStr "1", pyStr "n", pyStr "c", [], pyStr "Math", pyStr "xy", []⟩
        [] (connOn emptyDB) = (some e, [], connOn emptyDB) :=
  ⟨by decide, by decide,
   c9_bad_mark_blocks_save .add
     ⟨pyStr "1", pyStr "n", pyStr "c", [], pyStr "Math", pyStr "xy", []⟩
     [] (connOn emptyDB) (pyStr "xy") (by decide) (by decide)⟩

theorem form_core_blocked_on_dup (inp : FormInput)
    (students : List Student) (c : Conn)
    (hdup : students.any (fun s => s.uid == pyStrip inp.uidE) = true) :
    ∃ e, student_form_save_core .add inp students c = (some e, students, c) := by
  unfold student_form_save_core
  cases hpm : parseMarks (splitField inp.marksE) with
  | none => simp only [hpm]; split_ifs <;> exact ⟨_, rfl⟩
  | some marks =>
    simp only [hpm, hdup]
    split_ifs <;> exact ⟨_, rfl⟩

/-- C10: an add-mode form submission whose (stripped) UID already belongs
to some in-memory student is rejected with an error, and both the
in-memory list and the connection are returned unchanged. -/
theorem c10_duplicate_uid_add_rejected (inp : FormInput)
    (students : List Student) (c : Conn)
    (hdup : students.any (fun s => s.uid == pyStrip inp.uidE) = true) :
    ∃ e, student_form_save .add inp students c = (some e, students, c) := by
  obtain ⟨e, he⟩ := form_core_blocked_on_dup inp students c hdup
  exact ⟨e, by unfold student_form_save; rw [he]⟩

/-- Witness for C10: adding uid `"1"` twice is rejected and changes
nothing. -/
theorem c10_duplicate_uid_add_rejected_witness :
    [(⟨pyStr "1", pyStr "alice", pyStr "c", pyStr "s", [], [], []⟩ : Student)].any
        (fun s => s.uid ==
          pyStrip (⟨pyStr "1", pyStr "n", pyStr "c", [], pyStr "Math",
            pyStr "85", []⟩ : FormInput).uidE) = true ∧
    ∃ e, student_form_save .add
        ⟨pyStr "1", pyStr "n", pyStr "c", [], pyStr "Math", pyStr "85", []⟩
        [⟨pyStr "1", pyStr "alice", pyStr "c", pyStr "s", [], [], []⟩]
        (connOn emptyDB) =
      (some e, [⟨pyStr "1", pyStr "alice", pyStr "c", pyStr "s", [], [], []⟩],
        connOn emptyDB) :=
  ⟨by decide,
   c10_duplicate_uid_add_rejected
     ⟨pyStr "1", pyStr "n", pyStr "c", [], pyStr "Math", pyStr "85", []⟩
     [⟨pyStr "1", pyStr "alice", pyStr "c", pyStr "s", [], [], []⟩]
     (connOn emptyDB) (by decide)⟩

/-- C7: after `db_delete_student_normalized uid`, no link row referencing
`uid` remains in the committed store.  The hypothesis is the foreign-key
integrity the schema enforces on every insert: each link row references an
existing student row. -/
theorem c7_delete_leaves_no_orphan_links (uid : Str) (c : Conn)
    (hfk : ∀ l ∈ c.cur.links, ∃ r ∈ c.cur.students, r.uid = l.student_uid) :
    ∀ l ∈ (db_delete_student_normalized uid c).committed.links,
      l.student_uid ≠ uid := by
  intro l hl heq
  unfold db_delete_student_normalized deleteStudentsWhere at hl
  simp only at hl
  rw [List.mem_filter] at hl
  obtain ⟨hmem, hcond⟩ := hl
  obtain ⟨r, hr, hruid⟩ := hfk l hmem
  have hany : (c.cur.students.filter (fun r => r.uid == uid)).any
      (fun r' => r'.uid == l.student_uid) = true := by
    rw [List.any_eq_true]
    refine ⟨r, List.mem_filter.mpr ⟨hr, ?_⟩, ?_⟩
    · rw [beq_iff_eq, hruid, heq]
    · rw [beq_iff_eq]; exact hruid
  rw [hany] at hcond
  simp at hcond

/-- Witness for C7: deleting `u1` from a two-student store with one link
row per student leaves only `u2`'s link, which does not reference `u1`. -/
theorem c7_delete_leaves_no_orphan_links_witness :
    (⟨pyStr "u2", 2, some ⟨70, 1⟩⟩ : LinkRow).student_uid ≠ pyStr "u1" :=
  c7_delete_leaves_no_orphan_links (pyStr "u1")
    (connOn ⟨[⟨pyStr "u1", pyStr "n", pyStr "c", pyStr "s", []⟩,
        ⟨pyStr "u2", pyStr "m", pyStr "c", pyStr "s", []⟩],
      [⟨1, pyStr "Math"⟩, ⟨2, pyStr "Sci"⟩], 3,
      [⟨pyStr "u1", 1, some ⟨85, 1⟩⟩, ⟨pyStr "u2", 2, some ⟨70, 1⟩⟩]⟩)
    (by decide) ⟨pyStr "u2", 2, some ⟨70, 1⟩⟩ (by decide)

/-- C6: after `save_data` reconciles any in-memory list (whatever database
errors the per-student upserts may have hit — each is caught inside its own
upsert), every student row left in the committed store has its uid in the
in-memory set, and an empty in-memory list clears the `students` table. -/
theorem c6_reconciliation_deletes_absent (students : List Student)
    (fas : List (Option Nat)) (c : Conn) :
    (∀ r ∈ (save_data students fas c).committed.students,
        r.uid ∈ students.map Student.uid) ∧
    (students = [] → (save_data students fas c).committed.students = []) := by
  constructor
  · intro r hr
    unfold save_data at hr
    by_cases hs : students = []
    · subst hs
      simp [deleteStudentsWhere] at hr
    · have hne : (students.map Student.uid).isEmpty = false :=
        isEmpty_false_of_ne_nil (by simpa using hs)
      simp only [hne, Bool.not_false, if_true, deleteStudentsWhere] at hr
      rw [List.mem_filter] at hr
      obtain ⟨_, hcond⟩ := hr
      simpa using hcond
  · intro hs
    subst hs
    unfold save_data
    simp [deleteStudentsWhere]

/-- Witness for C6: reconciling `[u1]` over a store also holding `u2`
keeps only `u1` (its row's uid is in the in-memory set), and reconciling
the empty list clears the table. -/
theorem c6_reconciliation_deletes_absent_witness :
    (⟨pyStr "u1", pyStr "n", pyStr "c", pyStr "s", []⟩ : StudentRow).uid ∈
      [(⟨pyStr "u1", pyStr "n", pyStr "c", pyStr "s", [pyStr "Math"],
          [pyStr "90"], []⟩ : Student)].map Student.uid ∧
    (save_data [] []
        (connOn ⟨[⟨pyStr "u2", pyStr "m", pyStr "c", pyStr "s", []⟩],
          [], 1, []⟩)).committed.students = [] :=
  ⟨(c6_reconciliation_deletes_absent
      [⟨pyStr "u1", pyStr "n", pyStr "c", pyStr "s", [pyStr "Math"],
        [pyStr "90"], []⟩] []
      (connOn ⟨[⟨pyStr "u2", pyStr "m", pyStr "c", pyStr "s", []⟩,
          ⟨pyStr "u1", pyStr "n", pyStr "c", pyStr "s", []⟩],
        [⟨1, pyStr "Math"⟩], 2, []⟩)).1
    ⟨pyStr "u1", pyStr "n", pyStr "c", pyStr "s", []⟩ (by decide),
   (c6_reconciliation_deletes_absent [] []
      (connOn ⟨[⟨pyStr "u2", pyStr "m", pyStr "c", pyStr "s", []⟩],
        [], 1, []⟩)).2 rfl⟩

/-! ### Round trip (C2) -/

/-- The structural invariants the schema maintains: primary-key uniqueness
of `students.uid`, of `subjects.id` and (`UNIQUE`) of `subjects.name`, and
the `AUTOINCREMENT` counter's dominance over every issued subject id. -/
def DBwf (db : DB) : Prop :=
  (db.students.map StudentRow.uid).Nodup ∧
  (db.subjects.map SubjectRow.id).Nodup ∧
  (db.subjects.map SubjectRow.name).Nodup ∧
  (∀ s ∈ db.subjects, s.id < db.nextSubjectId) ∧
  (∀ l ∈ db.links, l.subject_id < db.nextSubjectId)

instance (db : DB) : Decidable (DBwf db) := by
  unfold DBwf
  infer_instance

/-- What a round trip through the normalized store does to a record: the
(subject, parsed mark) pairs come back reordered by subject name and each
mark is rendered as the string of its float value. -/
def normalizeStudent (st : Student) : Student :=
  let pairs := sortByName (st.subjects.zip (st.marks.map pyFloat))
  ⟨st.uid, st.name, st.student_class, st.section',
    pairs.map Prod.fst, pairs.map (fun p => renderMark p.2),
    st.image_filename⟩

/-- The join step of `load_data` for a single link row. -/
def resolvePair (db : DB) (l : LinkRow) : Option (Str × Option PyRat) :=
  (db.subjects.find? (fun s => s.id == l.subject_id)).map
    (fun s => (s.name, l.mark))

theorem joinedPairs_eq (db : DB) (uid : Str) :
    joinedPairs db uid =
      (db.links.filter (fun l => l.student_uid == uid)).filterMap
        (resolvePair db) := rfl

/-- C2 (refuted — evaluation at a counterexample): saving the student `u`
with subject list `[b, a]` and marks `["1", "2"]` into an empty store and
loading yields subjects `[a, b]` and marks `["2.0", "1.0"]` — the pairs
come back sorted by subject name and the marks as float strings, so the
loaded record is not identical to the saved one. -/
theorem c2_round_trip_not_identical :
    load_data (db_upsert_student_normalized
        ⟨pyStr "u", pyStr "n", pyStr "c", pyStr "s",
          [pyStr "b", pyStr "a"], [pyStr "1", pyStr "2"], []⟩ none
        (connOn emptyDB)).committed =
      [⟨pyStr "u", pyStr "n", pyStr "c", pyStr "s",
        [pyStr "a", pyStr "b"], [pyStr "2.0", pyStr "1.0"], []⟩] ∧
    load_data (db_upsert_student_normalized
        ⟨pyStr "u", pyStr "n", pyStr "c", pyStr "s",
          [pyStr "b", pyStr "a"], [pyStr "1", pyStr "2"], []⟩ none
        (connOn emptyDB)).committed ≠
      [⟨pyStr "u", pyStr "n", pyStr "c", pyStr "s",
        [pyStr "b", pyStr "a"], [pyStr "1", pyStr "2"], []⟩] := by
  decide

theorem find_by_id_of_mem (l : List SubjectRow) (r : SubjectRow)
    (hmem : r ∈ l) (hnd : (l.map SubjectRow.id).Nodup) :
    l.find? (fun s => s.id == r.id) = some r := by
  induction l with
  | nil => cases hmem
  | cons a t ih =>
    simp only [List.map_cons, List.nodup_cons] at hnd
    rcases List.mem_cons.mp hmem with rfl | hmt
    · rw [List.find?_cons]
      simp
    · rw [List.find?_cons]
      have hne : (a.id == r.id) = false := by
        rw [beq_eq_false_iff_ne]
        intro h
        exact hnd.1 (h ▸ List.mem_map_of_mem SubjectRow.id hmt)
      rw [hne]
      exact ih hmt hnd.2

theorem find_id_stable (dbsub ext : List SubjectRow) (next sid : Nat)
    (hext : ∀ s ∈ ext, next ≤ s.id) (hlt : sid < next) :
    (dbsub ++ ext).find? (fun s => s.id == sid) =
      dbsub.find? (fun s => s.id == sid) := by
  rw [List.find?_append]
  have : ext.find? (fun s => s.id == sid) = none := by
    rw [List.find?_eq_none]
    intro s hs
    rw [beq_iff_eq]
    intro h
    have := hext s hs
    omega
  rw [this, Option.or_none]

theorem insertSubject_spec (name : Str) (db : DB) (hwf : DBwf db) :
    ∃ sid : Nat,
      findSubjectId name (insertSubjectIfAbsent name db) = some sid ∧
      ⟨sid, name⟩ ∈ (insertSubjectIfAbsent name db).subjects ∧
      sid < (insertSubjectIfAbsent name db).nextSubjectId ∧
      DBwf (insertSubjectIfAbsent name db) ∧
      (∃ ext, (insertSubjectIfAbsent name db).subjects = db.subjects ++ ext ∧
        ∀ s ∈ ext, db.nextSubjectId ≤ s.id) ∧
      db.nextSubjectId ≤ (insertSubjectIfAbsent name db).nextSubjectId ∧
      (insertSubjectIfAbsent name db).students = db.students ∧
      (insertSubjectIfAbsent name db).links = db.links := by
  obtain ⟨hwf1, hwf2, hwf3, hwf4, hwf5⟩ := hwf
  by_cases hany : db.subjects.any (fun s => s.name == name) = true
  · -- the subject already exists: `INSERT OR IGNORE` is a no-op
    have heq : insertSubjectIfAbsent name db = db := by
      unfold insertSubjectIfAbsent
      rw [if_pos hany]
    rw [heq]
    have hsome : (db.subjects.find? (fun s => s.name == name)).isSome = true := by
      rw [List.find?_isSome]
      exact List.any_eq_true.mp hany
    obtain ⟨r, hr⟩ := Option.isSome_iff_exists.mp hsome
    have hrmem := List.mem_of_find?_eq_some hr
    have hrname : r.name = name := by
      have := List.find?_some hr
      simpa using this
    refine ⟨r.id, ?_, ?_, hwf4 r hrmem, ⟨hwf1, hwf2, hwf3, hwf4, hwf5⟩,
      ⟨[], by simp, by simp⟩, le_refl _, rfl, rfl⟩
    · unfold findSubjectId
      rw [hr]
      rfl
    · have : (⟨r.id, name⟩ : SubjectRow) = r := by
        cases r
        simp_all
      rw [this]
      exact hrmem
  · -- new subject: appended with the fresh id `db.nextSubjectId`
    have heq : insertSubjectIfAbsent name db =
        ⟨db.students, db.subjects ++ [⟨db.nextSubjectId, name⟩],
          db.nextSubjectId + 1, db.links⟩ := by
      unfold insertSubjectIfAbsent
      rw [if_neg hany]
    rw [heq]
    have hnotmem : ∀ s ∈ db.subjects, (s.name == name) = false := by
      intro s hs
      rcases h : s.name == name with _ | _
      · rfl
      · exact absurd (List.any_eq_true.mpr ⟨s, hs, h⟩) hany
    refine ⟨db.nextSubjectId, ?_, by simp, by simp, ?_,
      ⟨[⟨db.nextSubjectId, name⟩], rfl, by simp⟩, by simp, rfl, rfl⟩
    · unfold findSubjectId
      rw [List.find?_append]
      have h1 : db.subjects.find? (fun s => s.name == name) = none := by
        rw [List.find?_eq_none]
        intro s hs
        rw [hnotmem s hs]
        simp
      rw [h1]
      simp
    · refine ⟨hwf1, ?_, ?_, ?_, ?_⟩
      · rw [List.map_append, List.nodup_append]
        refine ⟨hwf2, by simp, ?_⟩
        intro x hx
        simp only [List.map_cons, List.map_nil, List.mem_singleton]
        rintro rfl
        obtain ⟨s, hs, hsid⟩ := List.mem_map.mp hx
        have := hwf4 s hs
        omega
      · rw [List.map_append, List.nodup_append]
        refine ⟨hwf3, by simp, ?_⟩
        intro x hx
        simp only [List.map_cons, List.map_nil, List.mem_singleton]
        rintro rfl
        obtain ⟨s, hs, hsname⟩ := List.mem_map.mp hx
        have := hnotmem s hs
        rw [hsname] at this
        simp at this
      · intro s hs
        dsimp only
        rcases List.mem_append.mp hs with h | h
        · have := hwf4 s h
          omega
        · simp only [List.mem_singleton] at h
          subst h
          dsimp only
          omega
      · intro l hl
        dsimp only
        have := hwf5 l hl
        omega

theorem upsertLinks_spec (uid : Str) (ps : List (Str × Str)) :
    ∀ (k : Nat) (c : Conn),
      DBwf c.cur →
      (∀ p ∈ ps, pyStrip p.1 = p.1 ∧ p.1 ≠ []) →
      ∃ (c' : Conn) (k' : Nat) (ext : List SubjectRow) (news : List LinkRow),
        upsertLinks uid ps none k c = (true, c', k') ∧
        DBwf c'.cur ∧
        c'.cur.students = c.cur.students ∧
        c.cur.nextSubjectId ≤ c'.cur.nextSubjectId ∧
        c'.cur.subjects = c.cur.subjects ++ ext ∧
        (∀ s ∈ ext, c.cur.nextSubjectId ≤ s.id) ∧
        c'.cur.links = c.cur.links ++ news ∧
        (∀ l ∈ news, l.student_uid = uid) ∧
        news.map (resolvePair c'.cur) =
          ps.map (fun p => some (p.1, pyFloat p.2)) := by
  induction ps with
  | nil =>
    intro k c hwf _
    exact ⟨c, k, [], [], rfl, hwf, rfl, le_refl _, by simp, by simp, by simp,
      by simp, rfl⟩
  | cons p rest ih =>
    obtain ⟨subj, mk⟩ := p
    intro k c hwf hp
    obtain ⟨hstrip, hne⟩ := hp (subj, mk) (List.mem_cons_self _ _)
    have hps : ∀ q ∈ rest, pyStrip q.1 = q.1 ∧ q.1 ≠ [] :=
      fun q hq => hp q (List.mem_cons_of_mem _ hq)
    obtain ⟨sid, hfind, hrow, hsidlt, hwf1, ⟨ext1, hext1, hext1ge⟩, hnext1,
      hstu1, hlnk1⟩ := insertSubject_spec subj c.cur hwf
    have hgs : _get_subject_id subj none k c =
        (some sid, ⟨insertSubjectIfAbsent subj c.cur,
          insertSubjectIfAbsent subj c.cur⟩, k + 1) := by
      simp only [_get_subject_id, hstrip, isEmpty_false_of_ne_nil hne, hfind]
      simp
    obtain ⟨w1, w2, w3, w4, w5⟩ := hwf1
    have hwf2 : DBwf (insertLink ⟨uid, sid, pyFloat mk⟩
        (insertSubjectIfAbsent subj c.cur)) := by
      refine ⟨w1, w2, w3, w4, ?_⟩
      intro l hl
      dsimp only [insertLink] at hl ⊢
      rcases List.mem_append.mp hl with h | h
      · exact w5 l h
      · simp only [List.mem_singleton] at h
        subst h
        exact hsidlt
    obtain ⟨c', k', ext2, news2, heq', hwf', hstu', hnext', hsub', hext2ge,
      hlnk', hnews2uid, hres'⟩ :=
      ih (k + 2) ⟨insertSubjectIfAbsent subj c.cur,
        insertLink ⟨uid, sid, pyFloat mk⟩ (insertSubjectIfAbsent subj c.cur)⟩
        hwf2 hps
    refine ⟨c', k', ext1 ++ ext2, ⟨uid, sid, pyFloat mk⟩ :: news2,
      ?_, hwf', ?_, ?_, ?_, ?_, ?_, ?_, ?_⟩
    · -- the loop equation
      simp only [upsertLinks, hgs]
      rw [if_neg (by simp : ¬ (none : Option Nat) = some (k + 1))]
      exact heq'
    · rw [hstu']
      dsimp only [insertLink]
      exact hstu1
    · refine le_trans hnext1 (le_trans ?_ hnext')
      dsimp only [insertLink]
      exact le_refl _
    · rw [hsub']
      dsimp only [insertLink]
      rw [hext1, List.append_assoc]
    · intro s hs
      rcases List.mem_append.mp hs with h | h
      · exact hext1ge s h
      · refine le_trans hnext1 ?_
        exact hext2ge s h
    · rw [hlnk']
      dsimp only [insertLink]
      rw [hlnk1, List.append_assoc]
      rfl
    · intro l hl
      rcases List.mem_cons.mp hl with rfl | h
      · rfl
      · exact hnews2uid l h
    · rw [List.map_cons, hres']
      congr 1
      unfold resolvePair
      have hsubs : c'.cur.subjects =
          (insertSubjectIfAbsent subj c.cur).subjects ++ ext2 := by
        rw [hsub']
        rfl
      rw [hsubs]
      have hstable := find_id_stable (insertSubjectIfAbsent subj c.cur).subjects
        ext2 (insertSubjectIfAbsent subj c.cur).nextSubjectId sid
        (by intro s hs; exact hext2ge s hs) hsidlt
      rw [hstable]
      rw [find_by_id_of_mem _ ⟨sid, subj⟩ hrow w2]
      rfl

theorem replace_wf (st : Student) (db : DB) (hwf : DBwf db) :
    DBwf (replaceStudentRow st db) := by
  obtain ⟨w1, w2, w3, w4, w5⟩ := hwf
  refine ⟨?_, w2, w3, w4, w5⟩
  dsimp only [replaceStudentRow]
  rw [List.map_append, List.nodup_append]
  refine ⟨?_, by simp, ?_⟩
  · exact List.Nodup.sublist ((List.filter_sublist db.students).map _) w1
  · intro x hx
    simp only [List.map_cons, List.map_nil, List.mem_singleton]
    obtain ⟨r, hr, hruid⟩ := List.mem_map.mp hx
    obtain ⟨_, hcond⟩ := List.mem_filter.mp hr
    intro hxeq
    rw [hxeq] at hruid
    simp only [Bool.not_eq_true'] at hcond
    rw [beq_eq_false_iff_ne] at hcond
    exact hcond hruid

theorem deleteLinks_wf (uid : Str) (db : DB) (hwf : DBwf db) :
    DBwf (deleteLinksOf uid db) := by
  obtain ⟨w1, w2, w3, w4, w5⟩ := hwf
  refine ⟨w1, w2, w3, w4, ?_⟩
  intro l hl
  dsimp only [deleteLinksOf] at hl
  exact w5 l (List.mem_filter.mp hl).1

theorem deleteLinks_filter (uid : Str) (db : DB) :
    (deleteLinksOf uid db).links.filter (fun l => l.student_uid == uid) = [] := by
  dsimp only [deleteLinksOf]
  rw [List.filter_filter]
  apply List.filter_eq_nil_iff.mpr
  intro l _
  rcases h : l.student_uid == uid with _ | _ <;> simp [h]

theorem filter_links_all_uid (uid : Str) (news : List LinkRow)
    (h : ∀ l ∈ news, l.student_uid = uid) :
    news.filter (fun l => l.student_uid == uid) = news :=
  List.filter_eq_self.mpr (fun l hl => beq_iff_eq.mpr (h l hl))

theorem filterMap_of_map_some {α β γ : Type} (f : α → Option γ) (g : β → γ) :
    ∀ (xs : List α) (ys : List β),
      xs.map f = ys.map (fun y => some (g y)) → xs.filterMap f = ys.map g := by
  intro xs
  induction xs with
  | nil =>
    intro ys h
    cases ys with
    | nil => simp
    | cons y ys => simp at h
  | cons x xs ih =>
    intro ys h
    cases ys with
    | nil => simp at h
    | cons y ys =>
      simp only [List.map_cons, List.cons.injEq] at h
      obtain ⟨h1, h2⟩ := h
      rw [List.filterMap_cons, h1, List.map_cons, ih ys h2]

theorem db_upsert_none (st : Student) (c : Conn) :
    db_upsert_student_normalized st none c =
      (fun r : Bool × Conn × Nat =>
        if r.1 then { r.2.1 with committed := r.2.1.cur }
        else { r.2.1 with cur := r.2.1.committed })
      (upsertLinks st.uid (st.subjects.zip st.marks) none 2
        ⟨c.committed, deleteLinksOf st.uid (replaceStudentRow st c.cur)⟩) := rfl

/-- C2 (amended): saving a student whose subject names are already
stripped, non-empty and pairwise distinct into a well-formed store, then
loading, returns for that uid exactly `normalizeStudent st`: the same uid,
name, class, section and image reference, with the (subject, mark) pairs
reordered by subject name and each mark rendered as the string of its
float value (non-numeric marks as `""`).  Distinctness of the subject
names is assumed because sqlite leaves the relative order of equal
`ORDER BY` keys unspecified. -/
theorem c2_round_trip_amended (st : Student) (c : Conn)
    (hwf : DBwf c.cur)
    (hs : ∀ s ∈ st.subjects, pyStrip s = s ∧ s ≠ [])
    (_hnd : st.subjects.Nodup) :
    (load_data (db_upsert_student_normalized st none c).committed).filter
        (fun x => x.uid == st.uid) = [normalizeStudent st] := by
  have hwf1 : DBwf (replaceStudentRow st c.cur) := replace_wf st c.cur hwf
  have hwf2 : DBwf (deleteLinksOf st.uid (replaceStudentRow st c.cur)) :=
    deleteLinks_wf _ _ hwf1
  have hpairs : ∀ p ∈ st.subjects.zip st.marks,
      pyStrip p.1 = p.1 ∧ p.1 ≠ [] := by
    intro p hp
    obtain ⟨a, b⟩ := p
    exact hs a (List.of_mem_zip hp).1
  obtain ⟨c', k', ext, news, heq, hwf', hstu', hnext', hsub', hextge,
    hlnk', hnewsuid, hres⟩ :=
    upsertLinks_spec st.uid (st.subjects.zip st.marks) 2
      ⟨c.committed, deleteLinksOf st.uid (replaceStudentRow st c.cur)⟩
      hwf2 hpairs
  have hcom : (db_upsert_student_normalized st none c).committed = c'.cur := by
    rw [db_upsert_none, heq]
    rfl
  rw [hcom]
  have hD_students : c'.cur.students =
      c.cur.students.filter (fun r => !(r.uid == st.uid)) ++
        [⟨st.uid, st.name, st.student_class, st.section',
          st.image_filename⟩] := hstu'
  have hD_links : c'.cur.links =
      (deleteLinksOf st.uid (replaceStudentRow st c.cur)).links ++ news :=
    hlnk'
  -- the joined, ordered pairs for this uid are exactly the saved pairs
  have hjoined : joinedPairs c'.cur st.uid =
      st.subjects.zip (st.marks.map pyFloat) := by
    rw [joinedPairs_eq, hD_links, List.filter_append,
      deleteLinks_filter st.uid (replaceStudentRow st c.cur),
      List.nil_append, filter_links_all_uid st.uid news hnewsuid,
      filterMap_of_map_some (resolvePair c'.cur)
        (fun p => (p.1, pyFloat p.2)) news (st.subjects.zip st.marks) hres,
      List.zip_map_right]
    apply List.map_congr_left
    intro p _
    obtain ⟨a, b⟩ := p
    rfl
  unfold load_data
  rw [hD_students, List.map_append, List.filter_append]
  have hnil : ((c.cur.students.filter (fun r => !(r.uid == st.uid))).map
      (fun r =>
        (⟨r.uid, r.name, r.student_class, r.section',
          (sortByName (joinedPairs c'.cur r.uid)).map Prod.fst,
          (sortByName (joinedPairs c'.cur r.uid)).map
            (fun p => renderMark p.2),
          r.image_filename⟩ : Student))).filter
        (fun x => x.uid == st.uid) = [] := by
    apply List.filter_eq_nil_iff.mpr
    intro x hx
    obtain ⟨r, hr, hrx⟩ := List.mem_map.mp hx
    obtain ⟨_, hcond⟩ := List.mem_filter.mp hr
    simp only [Bool.not_eq_true'] at hcond
    rw [← hrx]
    simpa using hcond
  rw [hnil, List.nil_append]
  simp only [List.map_cons, List.map_nil, List.filter_cons, List.filter_nil]
  rw [if_pos (by simp)]
  rw [hjoined]
  rfl

/-- Witness for C2 (amended) at the counterexample's student and an empty
store: the loaded record is exactly the normalization of the saved one. -/
theorem c2_round_trip_amended_witness :
    (load_data (db_upsert_student_normalized
        ⟨pyStr "u", pyStr "n", pyStr "c", pyStr "s",
          [pyStr "b", pyStr "a"], [pyStr "1", pyStr "2"], []⟩ none
        (connOn emptyDB)).committed).filter
        (fun x => x.uid == pyStr "u") =
      [normalizeStudent ⟨pyStr "u", pyStr "n", pyStr "c", pyStr "s",
        [pyStr "b", pyStr "a"], [pyStr "1", pyStr "2"], []⟩] :=
  c2_round_trip_amended
    ⟨pyStr "u", pyStr "n", pyStr "c", pyStr "s",
      [pyStr "b", pyStr "a"], [pyStr "1", pyStr "2"], []⟩
    (connOn emptyDB) (by decide) (by decide) (by decide)
